import Mathlib

/-
Verification development for create_make.py, a Makefile generator for
C/C++ directories.  The Python source is shallowly embedded: file contents
are lists of characters (one per byte), the mutable Source_Files object is
an explicit record threaded through the scan, Python exceptions become
Except / Option results, and the mmap index / slice semantics (negative
indices wrap once, slices clamp) are reproduced exactly.
-/

set_option autoImplicit false

namespace CreateMake

/-- One directory entry handed to the classifier: its base name and its raw
content (the bytes the Python code would read through mmap). -/
structure SrcFile where
  name : String
  content : List Char
deriving DecidableEq

/-- One bucket of the files dictionary: the list of names, the space-joined
string, and the running count, mirroring the triple [[], str, int] kept per
extension in Source_Files. -/
structure FileSet where
  list : List String
  str : String
  count : Nat
deriving DecidableEq

/-- The Source_Files object: one FileSet per recognized extension, the
(name, extension) pair of the entry-point file, the object-file bucket and
the total file count. -/
structure SourceFiles where
  cFiles : FileSet
  cppFiles : FileSet
  psFiles : FileSet
  sFiles : FileSet
  hFiles : FileSet
  main : String × String
  obj : FileSet
  total_files : Nat
deriving DecidableEq

/-- The empty bucket, as set up in Source_Files init. -/
def emptySet : FileSet := ⟨[], "", 0⟩

/-- The state right after Source_Files init: every bucket empty and
main = two empty strings. -/
def initSF : SourceFiles :=
  ⟨emptySet, emptySet, emptySet, emptySet, emptySet, ("", ""), emptySet, 0⟩

/-- Split a character list at every dot, including empty segments, exactly
like the Python call name.split on a dot. -/
def splitDots : List Char → List (List Char)
  | [] => [[]]
  | c :: rest =>
    let r := splitDots rest
    if c = '.' then [] :: r
    else (c :: r.headI) :: r.tail

/-- The whitespace characters removed by the Python strip method. -/
def isSpaceChar (c : Char) : Bool :=
  c = ' ' || c = '\t' || c = '\n' || c = '\r' || c = '\x0b' || c = '\x0c'

/-- Python strip: whitespace removed from both ends. -/
def pyStrip (l : List Char) : List Char :=
  ((l.dropWhile isSpaceChar).reverse.dropWhile isSpaceChar).reverse

/-- The (name, ext) pair add_file computes: when the name splits into
exactly two dot-separated parts the stem and the dot-prefixed stripped
extension, otherwise ext is the sentinel "None" (the Python code leaves
name unbound there; it is never read on that path, modelled as ""). -/
def splitNameExt (nm : String) : String × String :=
  match splitDots nm.data with
  | [a, b] => (String.mk a, "." ++ String.mk (pyStrip b))
  | _ => ("", "None")

/-- The literal entry-point marker searched for in C and C++ files. -/
def entryMarker : List Char := "int main(".data

/-- First index at which pat occurs as a sublist of s, mirroring mmap find
(which returns the lowest match offset, or -1 modelled as none). -/
def findSub (s pat : List Char) : Option Nat :=
  match s with
  | [] => if List.isPrefixOf pat [] then some 0 else none
  | c :: rest =>
    if List.isPrefixOf pat (c :: rest) then some 0
    else (findSub rest pat).map (· + 1)

/-- Python mmap single-byte indexing: a negative index is shifted once by
the length, and an index still out of range raises IndexError (none). -/
def pyIndex (content : List Char) (i : Int) : Option Char :=
  let n : Int := content.length
  let j := if i < 0 then i + n else i
  if 0 ≤ j ∧ j < n then content.get? j.toNat else none

/-- Python slice index adjustment: negative indices are shifted once by the
length, then clamped into [0, n]. -/
def pySliceIdx (n : Nat) (i : Int) : Nat :=
  let j := if i < 0 then i + n else i
  if j < 0 then 0 else if j > (n : Int) then n else j.toNat

/-- Python slicing content[a:b] under the adjusted indices. -/
def pySlice (content : List Char) (a b : Int) : List Char :=
  (content.take (pySliceIdx content.length b)).drop (pySliceIdx content.length a)

/-- The backward walk of find_includes, one fuel unit per loop iteration:
starting at the match position it decrements until it sees a byte equal to
the hash character at distance at most 100 from the match (the loop
condition is a disjunction, so past distance 100 it can never stop), and
any out-of-range read is IndexError (none).  The fuel passed by
checkHeader is large enough that the zero-fuel branch is never taken
before the walk either stops or runs off the mapped range. -/
def backWalk (content : List Char) (found_byte : Nat) : Nat → Int → Option Int
  | 0, _ => none
  | fuel + 1, ps =>
    match pyIndex content ps with
    | none => none
    | some c =>
      if c = '#' ∧ (found_byte : Int) - ps ≤ 100 then some ps
      else backWalk content found_byte fuel (ps - 1)

/-- The per-header body of the find_includes loop: locate the first
occurrence of the header name, walk backward to a hash, and accept the
header when the eight-byte slice starting at the stop position spells the
include directive.  some false: header not accepted; some true: accepted;
none: the walk raised IndexError. -/
def checkHeader (content : List Char) (header : String) : Option Bool :=
  match findSub content header.data with
  | none => some false
  | some found =>
    match backWalk content found (found + content.length + 2) (found : Int) with
    | none => none
    | some ps => some (decide (pySlice content ps (ps + 8) = "#include".data))

/-- find_includes: fold the per-header check over the known headers in
their stored order, concatenating an accepted header followed by a single
space; none models the IndexError escaping the function. -/
def find_includes (content : List Char) (headers : List String) : Option String :=
  match headers with
  | [] => some ""
  | h :: rest =>
    match checkHeader content h with
    | none => none
    | some b =>
      match find_includes content rest with
      | none => none
      | some s => some ((if b then h ++ " " else "") ++ s)

/-- Append one name to a bucket: list, joined string and count are updated
together as in add_file. -/
def pushSet (fs : FileSet) (nm : String) : FileSet :=
  ⟨fs.list ++ [nm], fs.str ++ nm ++ " ", fs.count + 1⟩

/-- The bucket-update step of add_file: when the extension is one of the
five dictionary keys, push the full file name onto that bucket and bump
the total; otherwise leave the state unchanged. -/
def addToBucket (sf : SourceFiles) (ext nm : String) : SourceFiles :=
  if ext = ".c" then
    { sf with cFiles := pushSet sf.cFiles nm, total_files := sf.total_files + 1 }
  else if ext = ".cpp" then
    { sf with cppFiles := pushSet sf.cppFiles nm, total_files := sf.total_files + 1 }
  else if ext = ".ps" then
    { sf with psFiles := pushSet sf.psFiles nm, total_files := sf.total_files + 1 }
  else if ext = ".s" then
    { sf with sFiles := pushSet sf.sFiles nm, total_files := sf.total_files + 1 }
  else if ext = ".h" then
    { sf with hFiles := pushSet sf.hFiles nm, total_files := sf.total_files + 1 }
  else sf

/-- Read a bucket by its extension key. -/
def bucketOf (sf : SourceFiles) (ext : String) : FileSet :=
  if ext = ".c" then sf.cFiles
  else if ext = ".cpp" then sf.cppFiles
  else if ext = ".ps" then sf.psFiles
  else if ext = ".s" then sf.sFiles
  else if ext = ".h" then sf.hFiles
  else emptySet

/-- get_full_main: stem and extension of the registered entry point glued
together; the empty string when none is registered. -/
def get_full_main (sf : SourceFiles) : String := sf.main.1 ++ sf.main.2

/-- add_file: split the name, push recognized files into their bucket,
and for C or C++ files search the content for the entry marker; a file
without the marker becomes an object-file unit, a second file with the
marker raises MultipleMainError carrying both names. -/
def add_file (sf : SourceFiles) (f : SrcFile) : Except (String × String) SourceFiles :=
  let ne := splitNameExt f.name
  let nm := ne.1
  let ext := ne.2
  let sf1 := addToBucket sf ext f.name
  if ext = ".c" ∨ ext = ".cpp" then
    if findSub f.content entryMarker = none then
      .ok { sf1 with obj := pushSet sf1.obj (nm ++ ".o") }
    else if get_full_main sf1 ≠ "" then
      .error (get_full_main sf1, f.name)
    else
      .ok { sf1 with main := (nm, ext) }
  else
    .ok sf1

/-- scan_files: fold add_file over the directory entries, the first raised
MultipleMainError aborting the whole scan. -/
def scan_list (sf : SourceFiles) : List SrcFile → Except (String × String) SourceFiles
  | [] => .ok sf
  | f :: rest =>
    match add_file sf f with
    | .error e => .error e
    | .ok sf1 => scan_list sf1 rest

/-- Whether add_file would take the entry-point branch on this file: a
recognized single-dot C or C++ name whose content holds the marker. -/
def isEntryFile (f : SrcFile) : Bool :=
  ((splitNameExt f.name).2 == ".c" || (splitNameExt f.name).2 == ".cpp")
    && (findSub f.content entryMarker).isSome

/-- create_var: one Makefile variable line. -/
def create_var (nm v : String) : String := nm ++ " =\t" ++ v ++ "\n"

/-- A run of hash characters of the given length. -/
def hashes (n : Nat) : String := String.mk (List.replicate n '#')

/-- create_header: the three-line comment banner around a message. -/
def create_header (msg : String) : String :=
  "# " ++ hashes msg.length ++ " #\n"
    ++ "# " ++ msg ++ " #\n"
    ++ "# " ++ hashes msg.length ++ " #\n\n"

/-- create_ender: the single closing banner line. -/
def create_ender (msg : String) : String :=
  "# " ++ hashes msg.length ++ " #\n\n"

/-- o_rule: the suffix rule producing an object file. -/
def o_rule (suffix : String) : String :=
  let suffix1 := if suffix = ".cpp" ∨ suffix = ".C" ∨ suffix = ".s" then ".cc" else suffix
  suffix ++ ".o:\n\t" ++ "$(COMPILE" ++ suffix1 ++ ") " ++ "$<" ++ "\n"

/-- s_rule: the suffix rule producing an assembly file (the rewritten
suffix variable is computed and then unused, as in the source). -/
def s_rule (suffix : String) : String :=
  suffix ++ ".s:\n\t" ++ "$(CPP)" ++ " " ++ "-o" ++ " " ++ "$*" ++ ".s" ++ " " ++ "$<" ++ "\n"

/-- a_rule: the suffix rule producing a static library. -/
def a_rule (suffix : String) : String :=
  let suffix1 := if suffix = ".cpp" ∨ suffix = ".C" ∨ suffix = ".s" then ".cc" else suffix
  suffix ++ ".a:\n\t" ++ "$(COMPILE" ++ suffix1 ++ ") " ++ "-o" ++ " " ++ "$%" ++ " " ++ "$<" ++ "\n\t"
    ++ "$(AR)" ++ " " ++ "$(ARFLAGS)" ++ " " ++ "$@" ++ " " ++ "$%" ++ "\n\t"
    ++ "$(RM)" ++ " " ++ "$%" ++ "\n"

/-- The C link and compile prefix built from the toolchain macros. -/
def cVal : String := "$(CC)" ++ " " ++ "$(CFLAGS)" ++ " " ++ "$(CPPFLAGS)" ++ " "

/-- The C++ link and compile prefix built from the toolchain macros. -/
def ccVal : String := "$(CXX)" ++ " " ++ "$(CXXFLAGS)" ++ " " ++ "$(CPPFLAGS)" ++ " "

/-- The preprocessor invocation prefix. -/
def cppVal : String := "$(CPP)" ++ " " ++ "$(CPPFLAGS)" ++ " "

/-- The SOURCEFILES value: the four file-list macros joined by spaces. -/
def sourceVal : String :=
  "$(H_FILES)" ++ " " ++ "$(CPP_FILES)" ++ " " ++ "$(C_FILES)" ++ " " ++ "$(S_FILES)"

/-- read_header: the flags section, either from the lines of an existing
header.txt (stripped, blank lines skipped) or the default flag block.  The
optional line list models whether the file exists and what it holds. -/
def read_header (headerTxt : Option (List String)) : String :=
  match headerTxt with
  | some lines =>
    let header_msg := "Flags from 'header.txt'"
    let flags := lines.foldl
      (fun acc line =>
        let l := String.mk (pyStrip line.data)
        if l ≠ "" then acc ++ l ++ "\n" else acc) ""
    create_header header_msg ++ flags ++ "\n" ++ create_ender header_msg
  | none =>
    let header_msg := "Default Flags (create your own with a 'header.txt' file)"
    let flags := create_var "CXXFLAGS" "-ggdb" ++ create_var "CFLAGS" "-ggdb"
      ++ create_var "CLIBFLAGS" "-lm" ++ create_var "CCLIBFLAGS" ""
    create_header header_msg ++ flags ++ "\n" ++ create_ender header_msg

/-- The file-list variable block gather_files returns, read off the
already-scanned state (the scan itself is sequenced in run). -/
def gather_files_vars (sf : SourceFiles) : String :=
  create_var "CPP_FILES" sf.cppFiles.str
    ++ create_var "C_FILES" sf.cFiles.str
    ++ create_var "PS_FILES" sf.psFiles.str
    ++ create_var "S_FILES" sf.sFiles.str
    ++ create_var "H_FILES" sf.hFiles.str
    ++ create_var "SOURCEFILES" sourceVal
    ++ ".PRECIOUS:" ++ "\t" ++ "$(SOURCEFILES)" ++ "\n"
    ++ create_var "OBJFILES" sf.obj.str

/-- create_definitions: suffix declarations, rules, toolchain variables,
the flags block and the file-list variables. -/
def create_definitions (headerTxt : Option (List String)) (sf : SourceFiles) : String :=
  let definition := ".SUFFIXES:" ++ "\n" ++ ".SUFFIXES:" ++ "\t.a .o .c .C .cpp .s .S\n"
  let rules := o_rule ".c" ++ o_rule ".C" ++ o_rule ".cpp"
    ++ s_rule ".S" ++ o_rule ".s"
    ++ a_rule ".c" ++ a_rule ".C" ++ a_rule ".cpp" ++ "\n"
  let user_vars := create_var "CC" "gcc" ++ create_var "CXX" "g++" ++ "\n"
    ++ create_var "RM" "rm -f" ++ create_var "AR" "ar"
    ++ create_var "LINK.c" (cVal ++ "$(LDFLAGS)") ++ create_var "LINK.cc" (ccVal ++ "$(LDFLAGS)")
    ++ create_var "COMPILE.c" (cVal ++ "-c") ++ create_var "COMPILE.cc" (ccVal ++ "-c")
    ++ create_var "CPP" cppVal ++ "\n"
  let header_mak := read_header headerTxt ++ "\n\n"
  definition ++ rules ++ user_vars ++ header_mak ++ gather_files_vars sf

/-- create_target: the all target and the link rule for the entry point.
No check that an entry point exists: with none registered the stem and
extension are empty strings and the malformed text is produced anyway. -/
def create_target (sf : SourceFiles) : String :=
  let file_head := sf.main.1
  let file_obj := sf.main.1 ++ ".o"
  let lang := if sf.main.2 = ".c" then "$(CC)" else "$(CXX)"
  let flag := if sf.main.2 = ".c" then "$(CFLAGS)" else "$(CXXFLAGS)"
  let libflag := if sf.main.2 = ".c" then "$(CLIBFLAGS)" else "$(CCLIBFLAGS)"
  let all_str := "all:\t" ++ file_head ++ "\n\n"
  let target := sf.main.1 ++ ":\t" ++ file_obj ++ " " ++ "$(OBJFILES)" ++ "\n\t"
    ++ lang ++ " " ++ flag ++ " " ++ "-o" ++ " " ++ file_head ++ " "
    ++ file_obj ++ " " ++ "$(OBJFILES)" ++ " " ++ libflag ++ "\n\n"
  all_str ++ target

/-- The Python exceptions that can escape create_depend: the IndexError
raised inside find_includes, and the unbound local variable error hit when
neither candidate source exists on the first loop iteration. -/
inductive PyErr where
  | indexError : PyErr
  | nameError : PyErr
deriving DecidableEq

/-- The loop body of create_depend: the accumulator string, plus the
current value of the local variable includes (none while still unbound).
When neither stem.c nor stem.cpp is classified, the previous value of
includes is reused; if it was never assigned the line raises NameError. -/
def dependLoop (sf : SourceFiles) (fs : String → List Char) :
    List String → String → Option String → Except PyErr String
  | [], depends, _ => .ok depends
  | filename :: rest, depends, includesVar =>
    let depends1 := depends ++ filename ++ ": "
    let name_c := filename.dropRight 2 ++ ".c"
    let name_cpp := filename.dropRight 2 ++ ".cpp"
    let step : Except PyErr (Option String) :=
      if name_c ∈ sf.cFiles.list then
        match find_includes (fs name_c) sf.hFiles.list with
        | none => .error .indexError
        | some s => .ok (some s)
      else if name_cpp ∈ sf.cppFiles.list then
        match find_includes (fs name_cpp) sf.hFiles.list with
        | none => .error .indexError
        | some s => .ok (some s)
      else .ok includesVar
    match step with
    | .error e => .error e
    | .ok none => .error .nameError
    | .ok (some inc) => dependLoop sf fs rest (depends1 ++ inc ++ "\n") (some inc)

/-- create_depend: one dependency line per registered object file, the
headers found by find_includes on the matching source. -/
def create_depend (sf : SourceFiles) (fs : String → List Char) : Except PyErr String :=
  dependLoop sf fs sf.obj.list "" none

/-- create_misc: the clean and realclean pseudo-targets. -/
def create_misc (sf : SourceFiles) : String :=
  let clean := "clean:\n\t" ++ "del -f " ++ "$(OBJFILES)" ++ " "
    ++ (sf.main.1 ++ ".o") ++ " " ++ "core\n\n"
  let realclean := "realclean:\tclean\n\t" ++ "del -f " ++ sf.main.1 ++ ".exe\n"
  clean ++ realclean

/-- Either Python exception the whole run can abort with. -/
inductive RunErr where
  | multipleMain : String → String → RunErr
  | pyErr : PyErr → RunErr
deriving DecidableEq

/-- The top-level run: scan the directory entries, build the four
sections, and return the full Makefile text that would be written; an
error means the process aborted before output_Makefile, so no file is
written.  ts is the timestamp line, headerTxt the optional header.txt
content, fs maps a file name to its raw content. -/
def run (ts : String) (headerTxt : Option (List String)) (entries : List SrcFile)
    (fs : String → List Char) : Except RunErr String :=
  match scan_list initSF entries with
  | .error e => .error (.multipleMain e.1 e.2)
  | .ok sf =>
    let file_header := create_header ts
    let def_total := create_header "Definitions" ++ create_definitions headerTxt sf
      ++ create_ender "Definitions"
    let target_total := create_header "Targets" ++ create_target sf ++ create_ender "Targets"
    match create_depend sf fs with
    | .error e => .error (.pyErr e)
    | .ok dep =>
      let depend_total := create_header "Dependencies" ++ dep ++ create_ender "Dependencies"
      let misc_total := create_header "Miscellaneous" ++ create_misc sf
        ++ create_ender "Miscellaneous"
      .ok (file_header ++ def_total ++ target_total ++ depend_total ++ misc_total)

/-- Whether an Except result is ok. -/
def exceptOk {ε α : Type} : Except ε α → Bool
  | .ok _ => true
  | .error _ => false

/-- The condition of the spec sentence on include acceptance, written from
the spec words, to be compared with what the code does: the header name
appears somewhere in the content, preceded by a hash at distance at most
100 whose following eight bytes spell the include directive. -/
def specAcceptCondition (content : List Char) (header : String) : Bool :=
  (List.range content.length).any fun p =>
    List.isPrefixOf header.data (content.drop p) &&
      ((List.range (p + 1)).any fun q =>
        decide (p - q ≤ 100) && decide ((content.drop q).take 8 = "#include".data))

/-- Concatenation of a list of header names, each followed by a single
space: the shape of both the find_includes output and the str field of a
bucket. -/
def joinHdrs : List String → String
  | [] => ""
  | h :: t => h ++ " " ++ joinHdrs t

/-- Consistency of one bucket: its joined string is exactly its list
elements each followed by one space (accumulated left to right, as the
code does), and its count is the list length. -/
def setWf (fs : FileSet) : Bool :=
  (fs.str == fs.list.foldl (fun acc nm => acc ++ nm ++ " ") "")
    && (fs.count == fs.list.length)

/-- Consistency of the whole state: all five extension buckets and the
object bucket are individually consistent. -/
def sfWf (sf : SourceFiles) : Bool :=
  setWf sf.cFiles && setWf sf.cppFiles && setWf sf.psFiles
    && setWf sf.sFiles && setWf sf.hFiles && setWf sf.obj

end CreateMake

namespace CreateMake

/-! Helper lemmas about the embedded definitions. -/

theorem splitDots_ne_nil (l : List Char) : splitDots l ≠ [] := by
  cases l with
  | nil => simp [splitDots]
  | cons c rest =>
    simp only [splitDots]
    split <;> simp

theorem splitDots_length (l : List Char) : (splitDots l).length = l.count '.' + 1 := by
  induction l with
  | nil => simp [splitDots]
  | cons c rest ih =>
    simp only [splitDots]
    by_cases hc : c = '.'
    · simp [hc, List.count_cons, ih]
    · have hne : (splitDots rest).length ≠ 0 := by
        simpa [List.length_eq_zero] using splitDots_ne_nil rest
      have hcount : (c :: rest).count '.' = rest.count '.' := by
        simp [List.count_cons, hc]
      simp only [if_neg hc, hcount, List.length_cons, List.length_tail]
      omega

theorem addToBucket_main (s : SourceFiles) (e nm : String) :
    (addToBucket s e nm).main = s.main := by
  unfold addToBucket
  split_ifs <;> rfl

theorem addToBucket_obj (s : SourceFiles) (e nm : String) :
    (addToBucket s e nm).obj = s.obj := by
  unfold addToBucket
  split_ifs <;> rfl

theorem bucketOf_addToBucket (s : SourceFiles) (e nm : String)
    (he : e = ".c" ∨ e = ".cpp" ∨ e = ".ps" ∨ e = ".s" ∨ e = ".h") :
    bucketOf (addToBucket s e nm) e = pushSet (bucketOf s e) nm := by
  rcases he with h | h | h | h | h <;> subst h <;> rfl

theorem bucketOf_obj_update (s : SourceFiles) (x : FileSet) (e : String) :
    bucketOf { s with obj := x } e = bucketOf s e := by
  unfold bucketOf
  split_ifs <;> rfl

theorem bucketOf_main_update (s : SourceFiles) (m : String × String) (e : String) :
    bucketOf { s with main := m } e = bucketOf s e := by
  unfold bucketOf
  split_ifs <;> rfl

/-- Claim C1: the spec states that a header occurrence with no hash in the
100 bytes before it makes the backward walk give up, with the scanner
terminating normally and the header never appended.  The code instead
never stops once the walk has gone past the cap (the loop condition is a
disjunction), runs off the front of the mapping, wraps once through
negative indices and raises IndexError: on the one-header file whose whole
content is the header name itself, find_includes crashes (none) instead of
returning an empty result. -/
theorem find_includes_no_hash_crashes :
    find_includes (String.data "util.h") ["util.h"] = none
      ∧ checkHeader (String.data "util.h") "util.h" = none := by
  constructor <;> rfl

/-- Claim C3: the spec demands a NoEntryPoint fatal error and no output
when no file holds the entry marker.  The code has no such check: on an
empty directory the scan succeeds, create_target builds a malformed target
from the two empty main fields, and the run still produces a full Makefile
text (the write happens).  The literal below is the exact malformed
Targets body. -/
theorem run_empty_dir_still_writes :
    exceptOk (run "T" none [] (fun _ => [])) = true
      ∧ scan_list initSF [] = .ok initSF
      ∧ create_target initSF =
        "all:\t\n\n:\t.o $(OBJFILES)\n\t$(CXX) $(CXXFLAGS) -o  .o $(OBJFILES) $(CCLIBFLAGS)\n\n" := by
  refine ⟨rfl, rfl, rfl⟩

/-- Claim C4: the spec requires an empty dependency list and no error for
a registered unit whose source is in neither candidate bucket.  In the
code the local variable includes is only assigned inside the two matching
branches, so on the first unmatched unit the line appending it raises
UnboundLocalError (modelled as nameError) and the run crashes. -/
theorem create_depend_unmatched_unit_crashes :
    create_depend { initSF with obj := ⟨["foo.o"], "foo.o ", 1⟩ } (fun _ => [])
      = .error .nameError := by
  rfl

/-- Claim C8: a directory entry whose name has no dot or more than one dot
is treated as having no recognized extension: add_file leaves the whole
state untouched and succeeds, so the file lands in no bucket, is not
checked for the marker, and is silently dropped. -/
theorem add_file_multidot_dropped (s : SourceFiles) (f : SrcFile)
    (h : f.name.data.count '.' ≠ 1) :
    add_file s f = .ok s := by
  have h2 : (splitDots f.name.data).length ≠ 2 := by
    rw [splitDots_length]; omega
  have hx : splitNameExt f.name = ("", "None") := by
    unfold splitNameExt
    rcases hm : splitDots f.name.data with _ | ⟨a, _ | ⟨b, _ | ⟨c, t⟩⟩⟩
    · rfl
    · rfl
    · rw [hm] at h2; simp at h2
    · rfl
  unfold add_file
  rw [hx]
  rfl

/-- Witness for C8 at a doubly-dotted name: the classic foo.bar.cpp case
is dropped without touching the state. -/
theorem add_file_multidot_dropped_witness :
    add_file initSF ⟨"foo.bar.cpp", String.data "int main()"⟩ = .ok initSF := by
  exact add_file_multidot_dropped initSF ⟨"foo.bar.cpp", String.data "int main()"⟩ (by decide)

/-- Claim C6 counterexample: the spec says classification appends the stem
(base name without extension) to the bucket; the code appends the full
file name.  Adding util.h puts the string util.h, not util, into the
header bucket. -/
theorem bucket_gets_full_name_not_stem :
    (add_file initSF ⟨"util.h", []⟩).map (fun s => s.hFiles.list) = .ok ["util.h"]
      ∧ (["util.h"] : List String) ≠ ["util"] := by
  exact ⟨rfl, by decide⟩

/-- Claim C6 as amended: for a recognized extension, classification
appends the full file name (stem, dot and extension) to that kind of
bucket, whatever else add_file then does with the entry. -/
theorem add_file_appends_full_name (s s2 : SourceFiles) (f : SrcFile) (e : String)
    (he : (splitNameExt f.name).2 = e)
    (hrec : e = ".c" ∨ e = ".cpp" ∨ e = ".ps" ∨ e = ".s" ∨ e = ".h")
    (hok : add_file s f = .ok s2) :
    (bucketOf s2 e).list = (bucketOf s e).list ++ [f.name] := by
  simp only [add_file] at hok
  rw [he] at hok
  have hb := bucketOf_addToBucket s e f.name hrec
  by_cases hcc : e = ".c" ∨ e = ".cpp"
  · rw [if_pos hcc] at hok
    cases hfind : findSub f.content entryMarker with
    | none =>
      rw [hfind] at hok
      simp only [if_pos rfl] at hok
      cases hok
      rw [bucketOf_obj_update, hb]
      rfl
    | some v =>
      rw [hfind] at hok
      rw [if_neg (fun hcon => Option.noConfusion hcon)] at hok
      by_cases hmain : get_full_main (addToBucket s e f.name) ≠ ""
      · rw [if_pos hmain] at hok
        cases hok
      · rw [if_neg hmain] at hok
        cases hok
        rw [bucketOf_main_update, hb]
        rfl
  · rw [if_neg hcc] at hok
    cases hok
    rw [hb]
    rfl

/-- Witness for C6 amended: adding a.h to the fresh state appends the full
name a.h to the header bucket. -/
theorem add_file_appends_full_name_witness :
    (bucketOf { initSF with hFiles := ⟨["a.h"], "a.h ", 1⟩, total_files := 1 } ".h").list
      = (bucketOf initSF ".h").list ++ ["a.h"] := by
  exact add_file_appends_full_name initSF
    { initSF with hFiles := ⟨["a.h"], "a.h ", 1⟩, total_files := 1 }
    ⟨"a.h", []⟩ ".h" rfl (by simp) rfl
theorem isEntryFile_iff (f : SrcFile) :
    isEntryFile f = true ↔
      ((splitNameExt f.name).2 = ".c" ∨ (splitNameExt f.name).2 = ".cpp")
        ∧ findSub f.content entryMarker ≠ none := by
  unfold isEntryFile
  simp [Bool.and_eq_true, Bool.or_eq_true, Option.isSome_iff_ne_none]

theorem get_full_main_addToBucket (s : SourceFiles) (e nm : String) :
    get_full_main (addToBucket s e nm) = get_full_main s := by
  unfold get_full_main
  rw [addToBucket_main]

theorem add_file_not_entry (s : SourceFiles) (f : SrcFile) (h : isEntryFile f = false) :
    ∃ s2, add_file s f = .ok s2 ∧ s2.main = s.main := by
  simp only [add_file]
  by_cases hcc : (splitNameExt f.name).2 = ".c" ∨ (splitNameExt f.name).2 = ".cpp"
  · have hfind : findSub f.content entryMarker = none := by
      unfold isEntryFile at h
      rcases hcc with hc | hc <;> simp [hc] at h <;> exact h
    rw [if_pos hcc, hfind, if_pos rfl]
    exact ⟨_, rfl, addToBucket_main s _ f.name⟩
  · rw [if_neg hcc]
    exact ⟨_, rfl, addToBucket_main s _ f.name⟩

theorem add_file_first_entry (s : SourceFiles) (f : SrcFile) (h : isEntryFile f = true)
    (hm : s.main = ("", "")) :
    ∃ s2, add_file s f = .ok s2
      ∧ s2.main = ((splitNameExt f.name).1, (splitNameExt f.name).2) := by
  obtain ⟨hcc, hfind⟩ := (isEntryFile_iff f).mp h
  have hfull : get_full_main (addToBucket s (splitNameExt f.name).2 f.name) = "" := by
    rw [get_full_main_addToBucket]
    unfold get_full_main
    rw [hm]
    rfl
  simp only [add_file]
  rw [if_pos hcc, if_neg hfind, if_neg (not_not_intro hfull)]
  exact ⟨_, rfl, rfl⟩

theorem add_file_second_entry (s : SourceFiles) (f : SrcFile) (h : isEntryFile f = true)
    (hm : get_full_main s ≠ "") :
    add_file s f = .error (get_full_main s, f.name) := by
  obtain ⟨hcc, hfind⟩ := (isEntryFile_iff f).mp h
  have hfull : get_full_main (addToBucket s (splitNameExt f.name).2 f.name) ≠ "" := by
    rw [get_full_main_addToBucket]; exact hm
  simp only [add_file]
  rw [if_pos hcc, if_neg hfind, if_pos hfull, get_full_main_addToBucket]

theorem scan_no_entry_main (l : List SrcFile) (h : ∀ f ∈ l, isEntryFile f = false) :
    ∀ s, ∃ s2, scan_list s l = .ok s2 ∧ s2.main = s.main := by
  induction l with
  | nil => exact fun s => ⟨s, rfl, rfl⟩
  | cons f rest ih =>
    intro s
    obtain ⟨s1, hok, hmain⟩ := add_file_not_entry s f (h f (by simp))
    obtain ⟨s2, hok2, hmain2⟩ := ih (fun g hg => h g (by simp [hg])) s1
    refine ⟨s2, ?_, by rw [hmain2, hmain]⟩
    simp only [scan_list, hok]
    exact hok2

theorem scan_list_append (s : SourceFiles) (xs ys : List SrcFile) :
    scan_list s (xs ++ ys) =
      match scan_list s xs with
      | .error e => .error e
      | .ok s1 => scan_list s1 ys := by
  induction xs generalizing s with
  | nil => rfl
  | cons f rest ih =>
    simp only [List.cons_append, scan_list]
    cases add_file s f with
    | error e => rfl
    | ok s1 => exact ih s1

/-- Claim C5: whenever the scanned directory holds two marker-bearing
recognized C or C++ files, the run aborts with MultipleMainError carrying
the full name of the first registered entry file and the name of the
second, and no Makefile text is produced (the result is an error, never
a written output). -/
theorem run_two_entry_points_errors (ts : String) (headerTxt : Option (List String))
    (fs : String → List Char) (l1 l2 l3 : List SrcFile) (f1 f2 : SrcFile)
    (h1 : ∀ f ∈ l1, isEntryFile f = false)
    (h2 : ∀ f ∈ l2, isEntryFile f = false)
    (he1 : isEntryFile f1 = true) (he2 : isEntryFile f2 = true) :
    run ts headerTxt (l1 ++ f1 :: (l2 ++ f2 :: l3)) fs
      = .error (.multipleMain ((splitNameExt f1.name).1 ++ (splitNameExt f1.name).2) f2.name) := by
  obtain ⟨sa, hsa, hmaina⟩ := scan_no_entry_main l1 h1 initSF
  have hma : sa.main = ("", "") := by rw [hmaina]; rfl
  obtain ⟨sb, hsb, hmainb⟩ := add_file_first_entry sa f1 he1 hma
  obtain ⟨sc, hsc, hmainc⟩ := scan_no_entry_main l2 h2 sb
  have hfullc : get_full_main sc = (splitNameExt f1.name).1 ++ (splitNameExt f1.name).2 := by
    unfold get_full_main
    rw [hmainc, hmainb]
  have hne : get_full_main sc ≠ "" := by
    rw [hfullc]
    obtain ⟨hcc, -⟩ := (isEntryFile_iff f1).mp he1
    rcases hcc with hc | hc <;> rw [hc] <;> intro hx <;>
      (have hlen := congrArg String.length hx
       simp [String.length_append] at hlen
       exact absurd hlen.2 (by decide))
  have herr := add_file_second_entry sc f2 he2 hne
  have hscan : scan_list initSF (l1 ++ f1 :: (l2 ++ f2 :: l3))
      = .error (get_full_main sc, f2.name) := by
    rw [scan_list_append, hsa]
    show scan_list sa (f1 :: (l2 ++ f2 :: l3)) = _
    simp only [scan_list, hsb]
    rw [scan_list_append, hsc]
    show scan_list sc (f2 :: l3) = _
    simp only [scan_list, herr]
  unfold run
  rw [hscan, hfullc]

/-- Witness for C5: two one-line files both containing the marker make the
run fail with both names, in scan order. -/
theorem run_two_entry_points_errors_witness :
    run "T" none [⟨"a.c", String.data "int main()"⟩, ⟨"b.cpp", String.data "int main()"⟩]
      (fun _ => []) = .error (.multipleMain "a.c" "b.cpp") := by
  have h := run_two_entry_points_errors "T" none (fun _ => []) [] [] []
    ⟨"a.c", String.data "int main()"⟩ ⟨"b.cpp", String.data "int main()"⟩
    (by simp) (by simp) (by decide) (by decide)
  simpa using h
theorem pushSet_wf (fs : FileSet) (nm : String) (h : setWf fs = true) :
    setWf (pushSet fs nm) = true := by
  unfold setWf at h ⊢
  simp only [pushSet]
  simp only [Bool.and_eq_true, beq_iff_eq] at h ⊢
  obtain ⟨h1, h2⟩ := h
  constructor
  · show fs.str ++ nm ++ " " = List.foldl (fun acc nm => acc ++ nm ++ " ") "" (fs.list ++ [nm])
    rw [List.foldl_append, ← h1]
    rfl
  · show fs.count + 1 = (fs.list ++ [nm]).length
    simp [h2]

theorem addToBucket_wf (s : SourceFiles) (e nm : String) (h : sfWf s = true) :
    sfWf (addToBucket s e nm) = true := by
  unfold sfWf at h ⊢
  simp only [Bool.and_eq_true] at h ⊢
  obtain ⟨⟨⟨⟨⟨hc, hcpp⟩, hps⟩, hs'⟩, hh⟩, ho⟩ := h
  unfold addToBucket
  split_ifs
  · exact ⟨⟨⟨⟨⟨pushSet_wf _ _ hc, hcpp⟩, hps⟩, hs'⟩, hh⟩, ho⟩
  · exact ⟨⟨⟨⟨⟨hc, pushSet_wf _ _ hcpp⟩, hps⟩, hs'⟩, hh⟩, ho⟩
  · exact ⟨⟨⟨⟨⟨hc, hcpp⟩, pushSet_wf _ _ hps⟩, hs'⟩, hh⟩, ho⟩
  · exact ⟨⟨⟨⟨⟨hc, hcpp⟩, hps⟩, pushSet_wf _ _ hs'⟩, hh⟩, ho⟩
  · exact ⟨⟨⟨⟨⟨hc, hcpp⟩, hps⟩, hs'⟩, pushSet_wf _ _ hh⟩, ho⟩
  · exact ⟨⟨⟨⟨⟨hc, hcpp⟩, hps⟩, hs'⟩, hh⟩, ho⟩

theorem add_file_wf (s s2 : SourceFiles) (f : SrcFile) (h : sfWf s = true)
    (hok : add_file s f = .ok s2) : sfWf s2 = true := by
  have hw := addToBucket_wf s (splitNameExt f.name).2 f.name h
  simp only [add_file] at hok
  by_cases hcc : (splitNameExt f.name).2 = ".c" ∨ (splitNameExt f.name).2 = ".cpp"
  · rw [if_pos hcc] at hok
    cases hfind : findSub f.content entryMarker with
    | none =>
      rw [hfind] at hok
      simp only [if_pos rfl] at hok
      cases hok
      unfold sfWf at hw ⊢
      simp only [Bool.and_eq_true] at hw ⊢
      obtain ⟨⟨⟨⟨⟨hc, hcpp⟩, hps⟩, hs'⟩, hh⟩, ho⟩ := hw
      exact ⟨⟨⟨⟨⟨hc, hcpp⟩, hps⟩, hs'⟩, hh⟩, pushSet_wf _ _ ho⟩
    | some v =>
      rw [hfind] at hok
      rw [if_neg (fun hcon => Option.noConfusion hcon)] at hok
      by_cases hmain : get_full_main (addToBucket s (splitNameExt f.name).2 f.name) ≠ ""
      · rw [if_pos hmain] at hok
        cases hok
      · rw [if_neg hmain] at hok
        cases hok
        exact hw
  · rw [if_neg hcc] at hok
    cases hok
    exact hw

theorem scan_list_wf (l : List SrcFile) :
    ∀ s s2, sfWf s = true → scan_list s l = .ok s2 → sfWf s2 = true := by
  induction l with
  | nil =>
    intro s s2 h hok
    cases hok
    exact h
  | cons f rest ih =>
    intro s s2 h hok
    simp only [scan_list] at hok
    cases ha : add_file s f with
    | error e => rw [ha] at hok; cases hok
    | ok s1 =>
      rw [ha] at hok
      exact ih s1 s2 (add_file_wf s s1 f h ha) hok

/-- Claim C9: after any successful sequence of add_file calls starting
from the fresh Source_Files state, every extension bucket and the object
bucket keep their three fields consistent: the joined string is exactly
the list elements each followed by one space, and the count equals the
list length. -/
theorem scan_buckets_consistent (l : List SrcFile) (s : SourceFiles)
    (h : scan_list initSF l = .ok s) : sfWf s = true := by
  exact scan_list_wf l initSF s (by rfl) h

/-- Witness for C9 on a two-file directory: the resulting state is
consistent. -/
theorem scan_buckets_consistent_witness :
    sfWf { initSF with
            cFiles := ⟨["a.c"], "a.c ", 1⟩,
            hFiles := ⟨["b.h"], "b.h ", 1⟩,
            obj := ⟨["a.o"], "a.o ", 1⟩,
            total_files := 2 } = true := by
  exact scan_buckets_consistent [⟨"a.c", String.data "int x;"⟩, ⟨"b.h", []⟩] _ (by rfl)
/-- Claim C10: a recognized C or C++ file that carries the entry marker
and is registered as the entry point is still appended, with its full
name, to its extension bucket (so it shows up in the C_FILES or CPP_FILES
variable and hence in SOURCEFILES); being the entry point only keeps it
out of the object bucket, which is unchanged, and the main pair records
the file. -/
theorem entry_point_still_in_bucket (s s2 : SourceFiles) (f : SrcFile) (e : String)
    (he : (splitNameExt f.name).2 = e)
    (hcc : e = ".c" ∨ e = ".cpp")
    (hfind : findSub f.content entryMarker ≠ none)
    (hmain : s.main = ("", ""))
    (hok : add_file s f = .ok s2) :
    (bucketOf s2 e).list = (bucketOf s e).list ++ [f.name]
      ∧ s2.obj = s.obj
      ∧ s2.main = ((splitNameExt f.name).1, e) := by
  have hfull : get_full_main (addToBucket s e f.name) = "" := by
    rw [get_full_main_addToBucket]
    unfold get_full_main
    rw [hmain]
    rfl
  have hrec : e = ".c" ∨ e = ".cpp" ∨ e = ".ps" ∨ e = ".s" ∨ e = ".h" := by
    rcases hcc with h | h
    · exact Or.inl h
    · exact Or.inr (Or.inl h)
  simp only [add_file] at hok
  rw [he, if_pos hcc, if_neg hfind, if_neg (not_not_intro hfull)] at hok
  cases hok
  refine ⟨?_, ?_, rfl⟩
  · rw [bucketOf_main_update, bucketOf_addToBucket s e f.name hrec]
    rfl
  · show (addToBucket s e f.name).obj = s.obj
    exact addToBucket_obj s e f.name

/-- Witness for C10: main.c carrying the marker lands in the C bucket,
the object bucket stays empty, and the main pair records it. -/
theorem entry_point_still_in_bucket_witness :
    (bucketOf { initSF with
                  cFiles := ⟨["main.c"], "main.c ", 1⟩,
                  main := ("main", ".c"),
                  total_files := 1 } ".c").list
        = (bucketOf initSF ".c").list ++ ["main.c"]
      ∧ ({ initSF with
            cFiles := ⟨["main.c"], "main.c ", 1⟩,
            main := ("main", ".c"),
            total_files := 1 } : SourceFiles).obj = initSF.obj
      ∧ ({ initSF with
            cFiles := ⟨["main.c"], "main.c ", 1⟩,
            main := ("main", ".c"),
            total_files := 1 } : SourceFiles).main = ((splitNameExt "main.c").1, ".c") := by
  exact entry_point_still_in_bucket initSF _ ⟨"main.c", String.data "int main()"⟩ ".c"
    rfl (Or.inl rfl) (by decide) rfl (by rfl)
/-- Claim C7: when find_includes returns normally, its output lists the
accepted headers in exactly the order of the header bucket it iterates
over (discovery order), each followed by one space: the output is the
in-order filter of the header list by the per-header check. -/
theorem find_includes_preserves_header_order (content : List Char) (headers : List String)
    (out : String) (h : find_includes content headers = some out) :
    out = joinHdrs (headers.filter fun h2 => checkHeader content h2 == some true) := by
  induction headers generalizing out with
  | nil =>
    simp only [find_includes, Option.some.injEq] at h
    rw [← h]
    rfl
  | cons hd rest ih =>
    simp only [find_includes] at h
    cases hc : checkHeader content hd with
    | none => rw [hc] at h; cases h
    | some b =>
      rw [hc] at h
      cases hr : find_includes content rest with
      | none => rw [hr] at h; cases h
      | some s =>
        rw [hr] at h
        simp only [Option.some.injEq] at h
        rw [← h, ih s hr]
        cases b with
        | false =>
          rw [List.filter_cons_of_neg (by simp [hc])]
          rfl
        | true =>
          rw [List.filter_cons_of_pos (by simp [hc])]
          rfl

/-- Witness for C7: with two headers in bucket order, the accepted subset
keeps that order. -/
theorem find_includes_preserves_header_order_witness :
    ("b.h a.h " : String)
      = joinHdrs ((["b.h", "a.h"].filter
          fun h2 => checkHeader (String.data "#include \x22b.h\x22\n#include \x22a.h\x22\n") h2
            == some true)) := by
  exact find_includes_preserves_header_order
    (String.data "#include \x22b.h\x22\n#include \x22a.h\x22\n") ["b.h", "a.h"] "b.h a.h " (by rfl)
theorem findSub_some_lt (s pat : List Char) (i : Nat) (hpat : pat ≠ [])
    (h : findSub s pat = some i) : i < s.length := by
  induction s generalizing i with
  | nil =>
    unfold findSub at h
    rw [if_neg ?hc] at h
    case hc =>
      cases pat with
      | nil => exact absurd rfl hpat
      | cons a t => simp [List.isPrefixOf]
    cases h
  | cons c rest ih =>
    unfold findSub at h
    by_cases hpre : List.isPrefixOf pat (c :: rest) = true
    · rw [if_pos hpre] at h
      cases h
      simp
    · rw [if_neg hpre] at h
      cases hf : findSub rest pat with
      | none => rw [hf] at h; cases h
      | some j =>
        rw [hf] at h
        simp only [Option.map_some', Option.some.injEq] at h
        have hj := ih j hf
        simp only [List.length_cons]
        omega

theorem pyIndex_nonneg (content : List Char) (k : Nat) (hk : k < content.length) :
    pyIndex content (k : Int) = content.get? k := by
  have h1 : ¬((k : Int) < 0) := by omega
  have h2 : (0 : Int) ≤ (k : Int) ∧ (k : Int) < (content.length : Int) := by omega
  simp only [pyIndex, if_neg h1, if_pos h2, Int.toNat_natCast]

theorem pySlice_take_drop (content : List Char) (q k : Nat) (hq : q ≤ content.length) :
    pySlice content (q : Int) ((q : Int) + (k : Int)) = (content.drop q).take k := by
  have ha : ¬((q : Int) < 0) := by omega
  have hb : ¬((q : Int) + (k : Int) < 0) := by omega
  have ha2 : ¬((q : Int) > (content.length : Int)) := by omega
  simp only [pySlice, pySliceIdx, if_neg ha, if_neg hb, if_neg ha2, Int.toNat_natCast]
  by_cases hbk : (q : Int) + (k : Int) > (content.length : Int)
  · rw [if_pos hbk, List.take_length]
    rw [List.take_of_length_le (by simp only [List.length_drop]; omega)]
  · rw [if_neg hbk]
    have hcast : ((q : Int) + (k : Int)).toNat = q + k := by omega
    rw [hcast, List.drop_take]
    congr 1
    omega

theorem backWalk_stops_at_hash (content : List Char) (found q : Nat)
    (hq : content.get? q = some '#') (hcap : found - q ≤ 100) :
    ∀ (d fuel : Nat), d < fuel → q + d ≤ found → q + d < content.length →
      (∀ k : Nat, q < k → k ≤ q + d → content.get? k ≠ some '#') →
      backWalk content found fuel ((q + d : Nat) : Int) = some (q : Int) := by
  intro d
  induction d with
  | zero =>
    intro fuel hfuel hle hlt hbet
    cases fuel with
    | zero => omega
    | succ fu =>
      simp only [Nat.add_zero]
      simp only [backWalk, pyIndex_nonneg content q (by omega), hq]
      rw [if_pos ⟨trivial, by omega⟩]
  | succ d ih =>
    intro fuel hfuel hle hlt hbet
    cases fuel with
    | zero => omega
    | succ fu =>
      cases hgc : content.get? (q + (d + 1)) with
      | none => exact absurd (List.get?_eq_none.mp hgc) (by omega)
      | some c =>
        have hcne : ¬(c = '#' ∧ (found : Int) - ((q + (d + 1) : Nat) : Int) ≤ 100) := by
          intro hand
          exact hbet (q + (d + 1)) (by omega) (by omega) (by rw [hgc, hand.1])
        simp only [backWalk, pyIndex_nonneg content (q + (d + 1)) hlt, hgc]
        rw [if_neg hcne]
        have hstep : ((q + (d + 1) : Nat) : Int) - 1 = ((q + d : Nat) : Int) := by
          push_cast
          ring
        rw [hstep]
        exact ih fu (by omega) (by omega) (by omega)
          (fun k hk1 hk2 => hbet k hk1 (by omega))

/-- Claim C2 counterexample: the spec condition (the header name appears
somewhere in the file preceded by a hash within 100 bytes whose following
eight bytes spell the include directive) holds for this content at the
second occurrence of util.h, yet find_includes returns an empty result:
the code only ever examines the first occurrence, and its backward walk
stops at the nearest hash, which starts a define, so the header is
rejected. -/
theorem spec_accept_condition_refuted :
    specAcceptCondition (String.data "#define util.h #include util.h") "util.h" = true
      ∧ find_includes (String.data "#define util.h #include util.h") ["util.h"] = some "" := by
  exact ⟨by rfl, by rfl⟩

/-- Claim C2 as amended: the acceptance test is anchored at the first
occurrence of the header name and at the nearest hash walking backward
from it: if the first occurrence sits at position p, the nearest preceding
hash is at position q with p - q at most 100, and the eight bytes from q
spell the include directive, then the per-header check accepts and
find_includes appends the header (regardless of surrounding context such
as a string literal). -/
theorem find_includes_first_match_accepts (content : List Char) (header : String) (p q : Nat)
    (hfind : findSub content header.data = some p)
    (hne : header.data ≠ [])
    (hq : content.get? q = some '#')
    (hqp : q ≤ p) (hcap : p - q ≤ 100)
    (hnear : ∀ k, q < k → k ≤ p → content.get? k ≠ some '#')
    (hslice : (content.drop q).take 8 = "#include".data) :
    checkHeader content header = some true
      ∧ find_includes content [header] = some (header ++ " ") := by
  have hp : p < content.length := findSub_some_lt content header.data p hne hfind
  have hqlt : q < content.length := by omega
  have hwalk := backWalk_stops_at_hash content p q hq (by omega) (p - q)
    (p + content.length + 2) (by omega) (by omega) (by omega)
    (fun k hk1 hk2 => hnear k hk1 (by omega))
  have hqpd : q + (p - q) = p := by omega
  rw [hqpd] at hwalk
  have hslice2 : pySlice content (q : Int) ((q : Int) + 8) = "#include".data := by
    have h8 : ((q : Int) + 8) = ((q : Int) + ((8 : Nat) : Int)) := by push_cast; ring
    rw [h8, pySlice_take_drop content q 8 (by omega), hslice]
  have hcheck : checkHeader content header = some true := by
    simp only [checkHeader, hfind, hwalk, hslice2]
    rfl
  refine ⟨hcheck, ?_⟩
  simp only [find_includes, hcheck, if_pos, String.append_empty]

/-- Witness for C2 amended: a plain include directive is accepted and the
header appended. -/
theorem find_includes_first_match_accepts_witness :
    checkHeader (String.data "#include \x22util.h\x22") "util.h" = some true
      ∧ find_includes (String.data "#include \x22util.h\x22") ["util.h"] = some ("util.h" ++ " ") := by
  exact find_includes_first_match_accepts (String.data "#include \x22util.h\x22") "util.h" 10 0
    (by rfl) (by decide) (by rfl) (by omega) (by omega)
    (fun k hk1 hk2 => by interval_cases k <;> decide)
    (by rfl)

end CreateMake
